import Mathlib

/-!
Shallow embedding of the Image Transform & Codec Engine of the
photoshop-zhar repository, together with proofs that settle the frozen
claims about its natural-language specification.

Conventions of the embedding:
* JavaScript numbers are embedded as exact rationals (`ℚ`); `Math.round`
  is `jsRound` (round half toward positive infinity), `Math.floor` is
  `Int.floor`.  Pixel bytes (entries of `Uint8ClampedArray` / `Uint8Array`)
  are naturals.
* The convolution arithmetic of `applyKernelFilter` additionally has to be
  faithful to `NaN` and `Infinity` (a ragged kernel matrix makes
  `matrix[ky][kx]` evaluate to `undefined`, which poisons the sum as `NaN`;
  a zero divisor produces infinities).  Those values are embedded by the
  four-constructor type `JSNum`.
* Imperative loops that fill a fresh `Uint8ClampedArray` are embedded as
  `listOfFn n f`, the list whose entry at a flat index `idx` is the value
  the loop stores there; `f` recovers the loop variables from `idx` by the
  usual row-major decomposition `idx = ((y*width + x)*4 + channel)`.
* Fallible functions return `Except String`.
-/

/-- `listOfFn n f` is the length-`n` list whose `i`-th entry is `f i`;
it embeds a freshly allocated array filled at every index by a loop. -/
def listOfFn (n : ℕ) (f : ℕ → ℕ) : List ℕ :=
  (List.range n).map f

/-- JavaScript `Math.round`: round half toward positive infinity. -/
def jsRound (q : ℚ) : ℤ :=
  ⌊q + 1/2⌋

/-- `Math.max(0, Math.min(255, z))` on an integer, as a byte. -/
def clampByte (z : ℤ) : ℕ :=
  (max 0 (min 255 z)).toNat

/-! ## GB7 encoder (src/src/lib/encodeGB7.ts) -/

/-- An `ImageData`-style RGBA pixel buffer: `data` is the flat
`R,G,B,A` byte sequence of length `width*height*4`. -/
structure PixelBuffer where
  width : ℕ
  height : ℕ
  data : List ℕ
deriving DecidableEq

/-- `GB7_SIGNATURE = [0x47, 0x42, 0x37, 0x1d]`. -/
def gb7Signature : List ℕ := [0x47, 0x42, 0x37, 0x1d]

/-- `DataView.setUint16(_, v, false)`: the two big-endian bytes of
`v mod 2^16`. -/
def setUint16BE (v : ℕ) : List ℕ :=
  [v % 65536 / 256, v % 65536 % 256]

/-- Luma quantisation of `encodeGB7`:
`grayscale = Math.round(0.2126*r + 0.7152*g + 0.0722*b)`, then
`Math.max(0, Math.min(127, Math.round(grayscale * 127 / 255)))`. -/
def grayscale7Bit (r g b : ℕ) : ℕ :=
  let grayscale : ℤ := jsRound ((0.2126 : ℚ) * r + (0.7152 : ℚ) * g + (0.0722 : ℚ) * b)
  (max 0 (min 127 (jsRound ((grayscale : ℚ) * 127 / 255)))).toNat

/-- `a >= ALPHA_THRESHOLD ? 1 : 0` with `ALPHA_THRESHOLD = 128`. -/
def alphaBit (a : ℕ) : ℕ :=
  if 128 ≤ a then 1 else 0

/-- `encodeGB7` from src/src/lib/encodeGB7.ts: validate dimensions and
data length, quantise every pixel to 7-bit luma plus a 1-bit alpha mask,
then emit the 12-byte header followed by one payload byte per pixel. -/
def encodeGB7 (imageData : PixelBuffer) : Except String (List ℕ) :=
  let width := imageData.width
  let height := imageData.height
  let data := imageData.data
  let pixelCount := width * height
  if width = 0 ∨ height = 0 then
    .error "Размер изображения не может быть 0"
  else if 65535 < width ∨ 65535 < height then
    .error "Размеры изображения превышают допустимый предел формата GB7 (65535 × 65535)"
  else if data.length ≠ pixelCount * 4 then
    .error "Некорректные данные изображения для кодировщика GB7"
  else
    let grayscaleData := (List.range pixelCount).map fun i =>
      grayscale7Bit (data.getD (i*4) 0) (data.getD (i*4+1) 0) (data.getD (i*4+2) 0)
    let alphaMask := (List.range pixelCount).map fun i =>
      alphaBit (data.getD (i*4+3) 0)
    -- the loop flag `hasTransparentPixel`: some pixel has alpha bit 0
    let hasMask := alphaMask.any fun bit => bit = 0
    let header : List ℕ :=
      gb7Signature ++ [1, if hasMask then 1 else 0]
        ++ setUint16BE width ++ setUint16BE height ++ setUint16BE 0
    let payload : List ℕ :=
      if hasMask then
        (List.range pixelCount).map fun i =>
          ((alphaMask.getD i 0) <<< 7) ||| grayscaleData.getD i 0
      else
        grayscaleData
    .ok (header ++ payload)

/-! ## GB7 decoder (src/lib/parseGB7.ts)

`parseGB7File` reads the byte stream through a `DataView` (header) and a
`Uint8Array` (payload) and renders into a canvas `ImageData`.  The
byte-level core is embedded below; the `FileReader`, canvas and data-URL
plumbing is outside the pixel model.  JavaScript semantics preserved here:

* `DataView.getUint8` / `getUint16` throw a `RangeError` when the read is
  out of bounds, so streams shorter than 10 bytes fail incidentally;
* `ctx.createImageData(width, height)` throws an `IndexSizeError` when a
  dimension is zero;
* a `Uint8Array` read past the end yields `undefined`, and both uses
  (`pixelByte & 0x7F`, `pixelByte & 0x80`) coerce `undefined` to `0`, so a
  missing payload byte behaves exactly like the byte `0` (`getD _ _ 0`).
  There is no length check against `12 + width*height` in the source. -/

structure GB7Parsed where
  version : ℕ
  hasMask : Bool
  width : ℕ
  height : ℕ
  data : List ℕ
deriving DecidableEq

/-- Byte-level core of `parseGB7File`. -/
def parseGB7File (bytes : List ℕ) : Except String GB7Parsed :=
  if bytes.length ≤ 0 then .error "RangeError"
  else if bytes.getD 0 0 ≠ 0x47 then .error "Invalid GrayBit-7 file signature"
  else if bytes.length ≤ 1 then .error "RangeError"
  else if bytes.getD 1 0 ≠ 0x42 then .error "Invalid GrayBit-7 file signature"
  else if bytes.length ≤ 2 then .error "RangeError"
  else if bytes.getD 2 0 ≠ 0x37 then .error "Invalid GrayBit-7 file signature"
  else if bytes.length ≤ 3 then .error "RangeError"
  else if bytes.getD 3 0 ≠ 0x1d then .error "Invalid GrayBit-7 file signature"
  else if bytes.length ≤ 4 then .error "RangeError"
  else if bytes.length ≤ 5 then .error "RangeError"
  else if bytes.length < 8 then .error "RangeError"
  else if bytes.length < 10 then .error "RangeError"
  else
    let version := bytes.getD 4 0
    let flags := bytes.getD 5 0
    let hasMask : Bool := (flags &&& 0x01) == 1
    let width := bytes.getD 6 0 * 256 + bytes.getD 7 0
    let height := bytes.getD 8 0 * 256 + bytes.getD 9 0
    if width = 0 ∨ height = 0 then .error "IndexSizeError"
    else
      let headerSize := 12
      let imageDataSize := width * height
      let data := (List.range imageDataSize).flatMap fun i =>
        let pixelByte := bytes.getD (headerSize + i) 0
        let grayscaleValue := pixelByte &&& 0x7F
        let scaledValue := grayscaleValue * 255 / 127
        let alpha := if hasMask then (if pixelByte &&& 0x80 ≠ 0 then 255 else 0) else 255
        [scaledValue, scaledValue, scaledValue, alpha]
      .ok ⟨version, hasMask, width, height, data⟩

/-! ## Histogram / curves (src/src/lib/histogram.ts) -/

/-- A curve control point; per the data model its fields are integers. -/
structure CurvePoint where
  input : ℤ
  output : ℤ
deriving DecidableEq

/-- `createLookupTable` from src/src/lib/histogram.ts: order the points by
input, then fill the 256-entry table with the left plateau, right plateau
and the interpolated middle. -/
def createLookupTable (point1 point2 : CurvePoint) : List ℕ :=
  let p := if point1.input ≤ point2.input then (point1, point2) else (point2, point1)
  let p1 := p.1
  let p2 := p.2
  let inputDelta := p2.input - p1.input
  let slope : ℚ := if inputDelta = 0 then 0 else ((p2.output : ℚ) - p1.output) / inputDelta
  (List.range 256).map fun i =>
    if (i : ℤ) ≤ p1.input then
      clampByte p1.output
    else if (i : ℤ) ≥ p2.input then
      clampByte p2.output
    else if inputDelta = 0 then
      clampByte (jsRound (((p1.output : ℚ) + p2.output) / 2))
    else
      clampByte (jsRound ((p1.output : ℚ) + slope * ((i : ℚ) - (p1.input : ℚ))))

/-! ## Resampler (src/lib/interpolation.ts) -/

/-- Interpolation method selector of `resizeImage`. -/
inductive InterpMethod where
  | nearest
  | bilinear
deriving DecidableEq

/-- `nearestNeighbor`: for every destination pixel copy all four channels
of the source pixel at `min(floor(dst * srcDim/dstDim), srcDim-1)`. -/
def nearestNeighbor (srcData : List ℕ) (srcWidth srcHeight destWidth destHeight : ℕ) :
    List ℕ :=
  let ratioX : ℚ := (srcWidth : ℚ) / destWidth
  let ratioY : ℚ := (srcHeight : ℚ) / destHeight
  listOfFn (destWidth * destHeight * 4) fun idx =>
    let y := idx / (4 * destWidth)
    let x := idx % (4 * destWidth) / 4
    let c := idx % 4
    let srcY := min (⌊(y : ℚ) * ratioY⌋.toNat) (srcHeight - 1)
    let srcX := min (⌊(x : ℚ) * ratioX⌋.toNat) (srcWidth - 1)
    srcData.getD ((srcY * srcWidth + srcX) * 4 + c) 0

/-- `bilinearInterpolation`: sample at `(x*(srcW-1)/dstW, y*(srcH-1)/dstH)`
and take the rounded bilinear weighted sum of the four neighbours; every
channel, alpha included, is interpolated the same way. -/
def bilinearInterpolation (srcData : List ℕ) (srcWidth srcHeight destWidth destHeight : ℕ) :
    List ℕ :=
  let ratioX : ℚ := ((srcWidth : ℚ) - 1) / destWidth
  let ratioY : ℚ := ((srcHeight : ℚ) - 1) / destHeight
  listOfFn (destWidth * destHeight * 4) fun idx =>
    let y := idx / (4 * destWidth)
    let x := idx % (4 * destWidth) / 4
    let i := idx % 4
    let yPos := (y : ℚ) * ratioY
    let y1 := (⌊yPos⌋).toNat
    let y2 := min (y1 + 1) (srcHeight - 1)
    let yDiff := yPos - (y1 : ℚ)
    let xPos := (x : ℚ) * ratioX
    let x1 := (⌊xPos⌋).toNat
    let x2 := min (x1 + 1) (srcWidth - 1)
    let xDiff := xPos - (x1 : ℚ)
    let p1 := (y1 * srcWidth + x1) * 4
    let p2 := (y1 * srcWidth + x2) * 4
    let p3 := (y2 * srcWidth + x1) * 4
    let p4 := (y2 * srcWidth + x2) * 4
    let top := (1 - xDiff) * (srcData.getD (p1 + i) 0 : ℚ) + xDiff * (srcData.getD (p2 + i) 0 : ℚ)
    let bottom := (1 - xDiff) * (srcData.getD (p3 + i) 0 : ℚ) + xDiff * (srcData.getD (p4 + i) 0 : ℚ)
    let value := (1 - yDiff) * top + yDiff * bottom
    clampByte (jsRound value)

/-- `resizeImage`: dispatch on the interpolation method. -/
def resizeImage (srcData : List ℕ) (srcWidth srcHeight destWidth destHeight : ℕ)
    (method : InterpMethod) : List ℕ :=
  if method = .nearest then
    nearestNeighbor srcData srcWidth srcHeight destWidth destHeight
  else
    bilinearInterpolation srcData srcWidth srcHeight destWidth destHeight

/-! ## Filters (src/lib/filters.ts)

The convolution arithmetic must be faithful to JavaScript doubles in the
degenerate cases the source does not guard against: a missing matrix entry
(`matrix[ky][kx]` of a ragged matrix is `undefined`, whose product is
`NaN`, which propagates through the sum, `Math.round`, `Math.min` and
`Math.max`, and is finally stored as `0` by the `Uint8ClampedArray`), and
a zero divisor (producing signed infinities).  `JSNum` carries exactly
those extra values over exact rationals. -/

/-- A JavaScript double, restricted to the values that can arise here:
an exact rational, `NaN`, or a signed infinity. -/
inductive JSNum where
  | num (q : ℚ)
  | nan
  | inf
  | ninf
deriving DecidableEq

/-- JavaScript `+` on `JSNum`. -/
def jsAdd : JSNum → JSNum → JSNum
  | .num a, .num b => .num (a + b)
  | .nan, _ => .nan
  | _, .nan => .nan
  | .inf, .ninf => .nan
  | .ninf, .inf => .nan
  | .inf, _ => .inf
  | _, .inf => .inf
  | .ninf, _ => .ninf
  | _, .ninf => .ninf

/-- JavaScript `*` on `JSNum`. -/
def jsMul : JSNum → JSNum → JSNum
  | .num a, .num b => .num (a * b)
  | .nan, _ => .nan
  | _, .nan => .nan
  | .inf, .num a => if a = 0 then .nan else if 0 < a then .inf else .ninf
  | .num a, .inf => if a = 0 then .nan else if 0 < a then .inf else .ninf
  | .ninf, .num a => if a = 0 then .nan else if 0 < a then .ninf else .inf
  | .num a, .ninf => if a = 0 then .nan else if 0 < a then .ninf else .inf
  | .inf, .inf => .inf
  | .ninf, .ninf => .inf
  | .inf, .ninf => .ninf
  | .ninf, .inf => .ninf

/-- JavaScript `/` on `JSNum`. -/
def jsDiv : JSNum → JSNum → JSNum
  | .num a, .num b =>
      if b = 0 then (if a = 0 then .nan else if 0 < a then .inf else .ninf)
      else .num (a / b)
  | .nan, _ => .nan
  | _, .nan => .nan
  | .inf, .num b => if 0 ≤ b then .inf else .ninf
  | .ninf, .num b => if 0 ≤ b then .ninf else .inf
  | .num _, .inf => .num 0
  | .num _, .ninf => .num 0
  | .inf, .inf => .nan
  | .inf, .ninf => .nan
  | .ninf, .inf => .nan
  | .ninf, .ninf => .nan

/-- JavaScript `Math.round` on `JSNum`. -/
def jsRoundN : JSNum → JSNum
  | .num q => .num ((jsRound q : ℤ) : ℚ)
  | .nan => .nan
  | .inf => .inf
  | .ninf => .ninf

/-- JavaScript `Math.min` on `JSNum` (`NaN` absorbs). -/
def jsMin : JSNum → JSNum → JSNum
  | .nan, _ => .nan
  | _, .nan => .nan
  | .ninf, _ => .ninf
  | _, .ninf => .ninf
  | .inf, b => b
  | a, .inf => a
  | .num a, .num b => .num (min a b)

/-- JavaScript `Math.max` on `JSNum` (`NaN` absorbs). -/
def jsMax : JSNum → JSNum → JSNum
  | .nan, _ => .nan
  | _, .nan => .nan
  | .inf, _ => .inf
  | _, .inf => .inf
  | .ninf, b => b
  | a, .ninf => a
  | .num a, .num b => .num (max a b)

/-- Storing a `JSNum` into a `Uint8ClampedArray` slot: `NaN` becomes `0`,
infinities clamp, rationals clamp to `[0,255]`.  Every rational stored by
the filters below is an integer (it passed through `Math.round`), so
taking `⌊q⌋` agrees with the conversion. -/
def toUint8Clamped : JSNum → ℕ
  | .num q => (max 0 (min 255 ⌊q⌋)).toNat
  | .nan => 0
  | .inf => 255
  | .ninf => 0

/-- The `Kernel` record of src/lib/filters.ts; `divisor` and `offset`
are optional with defaults `1` and `0`. -/
structure Kernel where
  matrix : List (List ℚ)
  divisor : Option ℚ := none
  offset : Option ℚ := none

/-- The identity preset of `FILTER_PRESETS` with the divisor and offset
the spec names explicitly. -/
def identityKernel : Kernel :=
  ⟨[[0, 0, 0], [0, 1, 0], [0, 0, 0]], some 1, some 0⟩

/-- The fixed kernel of `applyGaussianBlur`. -/
def gaussianKernel : Kernel :=
  ⟨[[1, 2, 1], [2, 4, 2], [1, 2, 1]], some 16, none⟩

/-- `matrix[ky][kx]` as a `JSNum`: a missing entry of a ragged row is
`undefined`, which enters the arithmetic as `NaN`.  (The row itself always
exists when this is evaluated: the 3×3 precondition check guarantees
`matrix.length == 3`.) -/
def kernelAt (matrix : List (List ℚ)) (ky kx : ℕ) : JSNum :=
  match (matrix.getD ky []).get? kx with
  | some q => .num q
  | none => .nan

/-- First phase of `padImageData`: the fresh zero array with the source
copied into the centre.  `padStage1 img p py px c` is the value at padded
coordinates `(px, py)`, channel `c`. -/
def padStage1 (img : PixelBuffer) (p py px c : ℕ) : ℕ :=
  if p ≤ py ∧ py < p + img.height ∧ p ≤ px ∧ px < p + img.width then
    img.data.getD (((py - p) * img.width + (px - p)) * 4 + c) 0
  else 0

/-- Second phase of `padImageData`: the top/bottom edge-replication loop,
which rewrites rows `[0,p)` and `[p+height, p+height+p)` of the columns
`[p, p+width)` from rows `p` and `p+height-1`. -/
def padStage2 (img : PixelBuffer) (p py px c : ℕ) : ℕ :=
  if (p ≤ px ∧ px < p + img.width) ∧ py < p then
    padStage1 img p p px c
  else if (p ≤ px ∧ px < p + img.width) ∧ p + img.height ≤ py then
    padStage1 img p (p + img.height - 1) px c
  else
    padStage1 img p py px c

/-- Third phase of `padImageData`: the left/right edge-replication loop,
which rewrites columns `[0,p)` and `[p+width, p+width+p)` of every row
from columns `p` and `p+width-1` of the phase-2 state. -/
def padStage3 (img : PixelBuffer) (p py px c : ℕ) : ℕ :=
  if px < p then
    padStage2 img p py p c
  else if p + img.width ≤ px then
    padStage2 img p py (p + img.width - 1) c
  else
    padStage2 img p py px c

/-- `padImageData(imageData, padSize)`: the `(width+2p)×(height+2p)`
edge-replicated buffer. -/
def padImageData (img : PixelBuffer) (padSize : ℕ) : PixelBuffer :=
  let paddedWidth := img.width + 2 * padSize
  let paddedHeight := img.height + 2 * padSize
  ⟨paddedWidth, paddedHeight,
    listOfFn (paddedWidth * paddedHeight * 4) fun idx =>
      padStage3 img padSize (idx / (4 * paddedWidth)) (idx % (4 * paddedWidth) / 4) (idx % 4)⟩

/-- The inner convolution of `applyKernelFilter` for one output byte:
`sum += paddedData[paddedIndex + channel] * matrix[ky][kx]` over the 3×3
window, then `Math.max(0, Math.min(255, Math.round(sum/divisor + offset)))`
stored into the clamped array. -/
def convolvePixel (padded : ℕ → ℕ → ℕ → ℕ) (k : Kernel) (x y channel : ℕ) : ℕ :=
  let sum := (List.range 3).foldl (fun s ky =>
    (List.range 3).foldl (fun s kx =>
      jsAdd s (jsMul (.num (padded (y + ky) (x + kx) channel)) (kernelAt k.matrix ky kx))) s)
    (.num 0)
  let result := jsRoundN (jsAdd (jsDiv sum (.num (k.divisor.getD 1))) (.num (k.offset.getD 0)))
  toUint8Clamped (jsMax (.num 0) (jsMin (.num 255) result))

/-- `applyKernelFilter`: reject unless `matrix.length == 3` and
`matrix[0].length == 3` (only the first row is inspected), then convolve
R, G and B over the 1-padded buffer and copy alpha through. -/
def applyKernelFilter (imageData : PixelBuffer) (kernel : Kernel) : Except String PixelBuffer :=
  let width := imageData.width
  let height := imageData.height
  if kernel.matrix.length ≠ 3 ∨ (kernel.matrix.getD 0 []).length ≠ 3 then
    .error "Поддерживаются только ядра 3x3"
  else
    let padded := padImageData imageData 1
    let paddedWidth := padded.width
    let pget := fun py px c => padded.data.getD ((py * paddedWidth + px) * 4 + c) 0
    .ok ⟨width, height,
      listOfFn (width * height * 4) fun idx =>
        let y := idx / (4 * width)
        let x := idx % (4 * width) / 4
        let channel := idx % 4
        if channel < 3 then convolvePixel pget kernel x y channel
        else imageData.data.getD ((y * width + x) * 4 + 3) 0⟩

/-- `applyMedianFilter(imageData, kernelSize)`: pad by `⌊kernelSize/2⌋`,
sort each channel neighbourhood ascending (`.sort((a,b) => a-b)`; on
naturals the ascending reordering is unique, so the embedding may use any
sorting algorithm) and take the entry at `⌊count/2⌋`; alpha is copied. -/
def applyMedianFilter (imageData : PixelBuffer) (kernelSize : ℕ) : PixelBuffer :=
  let width := imageData.width
  let height := imageData.height
  let halfKernel := kernelSize / 2
  let padded := padImageData imageData halfKernel
  let paddedWidth := padded.width
  ⟨width, height,
    listOfFn (width * height * 4) fun idx =>
      let y := idx / (4 * width)
      let x := idx % (4 * width) / 4
      let channel := idx % 4
      if channel < 3 then
        let values := (List.range kernelSize).flatMap fun ky =>
          (List.range kernelSize).map fun kx =>
            padded.data.getD (((y + ky) * paddedWidth + (x + kx)) * 4 + channel) 0
        let sorted := values.insertionSort (· ≤ ·)
        sorted.getD (values.length / 2) 0
      else imageData.data.getD ((y * width + x) * 4 + 3) 0⟩

/-- One pass of `applyGaussianBlur`, i.e. `applyKernelFilter` with the
fixed 3×3 Gaussian kernel.  The error branch is unreachable: the kernel
is statically 3×3. -/
def gaussianPass (img : PixelBuffer) : PixelBuffer :=
  match applyKernelFilter img gaussianKernel with
  | .ok r => r
  | .error _ => img

/-- The `for (let i = 0; i < passes; i++)` loop of `applyGaussianBlur`. -/
def gaussianIter : ℕ → PixelBuffer → PixelBuffer
  | 0, img => img
  | n + 1, img => gaussianIter n (gaussianPass img)

/-- `applyGaussianBlur(imageData, sigma)`: apply the fixed 3×3 kernel
`Math.max(1, Math.round(sigma))` times. -/
def applyGaussianBlur (imageData : PixelBuffer) (sigma : ℚ) : PixelBuffer :=
  let passes := (max 1 (jsRound sigma)).toNat
  gaussianIter passes imageData

/-! ## Compositor (src/src/components/FilterHandler.tsx) -/

/-- The `BlendMode` union type. -/
inductive BlendMode where
  | normal
  | multiply
  | screen
  | overlay
deriving DecidableEq

/-- An RGBA quadruple of bytes, the element type of `blendColors`. -/
structure RGBA where
  r : ℕ
  g : ℕ
  b : ℕ
  a : ℕ
deriving DecidableEq

/-- One colour channel of the mode-specific blend arithmetic of
`blendColors`, on channels normalised to `[0,1]`. -/
def blendChannel (mode : BlendMode) (base overlay : ℚ) : ℚ :=
  match mode with
  | .normal => overlay
  | .multiply => base * overlay
  | .screen => 1 - (1 - base) * (1 - overlay)
  | .overlay =>
      if base < 1/2 then 2 * base * overlay
      else 1 - 2 * (1 - base) * (1 - overlay)

/-- `blendColors(base, overlay, mode, opacity)` from FilterHandler.tsx:
normalise to `[0,1]`, blend RGB by mode, mix with
`finalOpacity = (overlayAlpha/255)*opacity`, and set the result alpha to
`Math.round(Math.max(baseAlpha, overlayAlpha*opacity))`; every channel is
finally clamped with `Math.max(0, Math.min(255, _))`. -/
def blendColors (base overlay : RGBA) (mode : BlendMode) (opacity : ℚ) : RGBA :=
  let baseR : ℚ := (base.r : ℚ) / 255
  let baseG : ℚ := (base.g : ℚ) / 255
  let baseB : ℚ := (base.b : ℚ) / 255
  let overlayR : ℚ := (overlay.r : ℚ) / 255
  let overlayG : ℚ := (overlay.g : ℚ) / 255
  let overlayB : ℚ := (overlay.b : ℚ) / 255
  let resultR := blendChannel mode baseR overlayR
  let resultG := blendChannel mode baseG overlayG
  let resultB := blendChannel mode baseB overlayB
  let finalOpacity := ((overlay.a : ℚ) / 255) * opacity
  let finalR := jsRound ((resultR * finalOpacity + baseR * (1 - finalOpacity)) * 255)
  let finalG := jsRound ((resultG * finalOpacity + baseG * (1 - finalOpacity)) * 255)
  let finalB := jsRound ((resultB * finalOpacity + baseB * (1 - finalOpacity)) * 255)
  let finalA := jsRound (max (base.a : ℚ) ((overlay.a : ℚ) * opacity))
  ⟨clampByte finalR, clampByte finalG, clampByte finalB, clampByte finalA⟩

/-! ## Helper lemmas -/

theorem listOfFn_length (n : ℕ) (f : ℕ → ℕ) : (listOfFn n f).length = n := by
  simp [listOfFn]

theorem listOfFn_getD (n : ℕ) (f : ℕ → ℕ) (i : ℕ) (h : i < n) :
    (listOfFn n f).getD i 0 = f i := by
  simp [listOfFn, List.getD_eq_getElem?_getD, List.getElem?_map, List.getElem?_range h]

/-- Row-major flat index arithmetic: recovering the row. -/
theorem flatIdx_row (w y x c : ℕ) (hx : x < w) (hc : c < 4) :
    ((y * w + x) * 4 + c) / (4 * w) = y := by
  have h1 : (y * w + x) * 4 + c = (4 * w) * y + (4 * x + c) := by ring
  have h2 : 4 * x + c < 4 * w := by omega
  rw [h1, Nat.mul_add_div (by omega), Nat.div_eq_of_lt h2, add_zero]

/-- Row-major flat index arithmetic: recovering the column. -/
theorem flatIdx_col (w y x c : ℕ) (hx : x < w) (hc : c < 4) :
    ((y * w + x) * 4 + c) % (4 * w) / 4 = x := by
  have h1 : (y * w + x) * 4 + c = (4 * w) * y + (4 * x + c) := by ring
  have h2 : 4 * x + c < 4 * w := by omega
  rw [h1, Nat.mul_add_mod, Nat.mod_eq_of_lt h2]
  have h3 : 4 * x + c = 4 * x + c := rfl
  rw [Nat.mul_add_div (by omega), Nat.div_eq_of_lt hc, add_zero]

/-- Row-major flat index arithmetic: recovering the channel. -/
theorem flatIdx_chan (w y x c : ℕ) (hc : c < 4) :
    ((y * w + x) * 4 + c) % 4 = c := by
  have h1 : (y * w + x) * 4 + c = 4 * (y * w + x) + c := by ring
  rw [h1, Nat.mul_add_mod, Nat.mod_eq_of_lt hc]

/-- Any flat index of a `width*height*4` buffer decomposes into in-range
row, column and channel. -/
theorem flatIdx_split (w h idx : ℕ) (hidx : idx < w * h * 4) :
    idx / (4 * w) < h ∧ idx % (4 * w) / 4 < w ∧ idx % 4 < 4 ∧
      ((idx / (4 * w)) * w + idx % (4 * w) / 4) * 4 + idx % 4 = idx := by
  have hw : 0 < w := by
    rcases Nat.eq_zero_or_pos w with h0 | h0
    · subst h0; omega
    · exact h0
  have h4w : 0 < 4 * w := by omega
  have hdm := Nat.div_add_mod idx (4 * w)
  have hdm2 := Nat.div_add_mod (idx % (4 * w)) 4
  have hmlt : idx % (4 * w) < 4 * w := Nat.mod_lt _ h4w
  refine ⟨?_, ?_, ?_, ?_⟩
  · rw [Nat.div_lt_iff_lt_mul h4w]
    calc idx < w * h * 4 := hidx
    _ = h * (4 * w) := by ring
  · rw [Nat.div_lt_iff_lt_mul (by omega : 0 < 4)]
    omega
  · omega
  · have hmm : idx % (4 * w) % 4 = idx % 4 :=
      Nat.mod_mod_of_dvd idx ⟨w, rfl⟩
    calc ((idx / (4 * w)) * w + idx % (4 * w) / 4) * 4 + idx % 4
        = 4 * w * (idx / (4 * w)) + (4 * (idx % (4 * w) / 4) + idx % (4 * w) % 4) := by
          rw [hmm]; ring
    _ = 4 * w * (idx / (4 * w)) + idx % (4 * w) := by rw [hdm2]
    _ = idx := hdm

theorem jsRound_natCast (n : ℕ) : jsRound (n : ℚ) = n := by
  unfold jsRound
  rw [Int.floor_eq_iff]
  constructor
  · norm_num
  · norm_num

theorem jsRound_le_of_le (q : ℚ) (b : ℤ) (h : q ≤ b) : jsRound q ≤ b := by
  unfold jsRound
  have : (⌊q + 1/2⌋ : ℤ) < b + 1 := by
    rw [Int.floor_lt]
    push_cast
    linarith
  omega

theorem le_jsRound_of_le (q : ℚ) (b : ℤ) (h : (b : ℚ) ≤ q) : b ≤ jsRound q := by
  unfold jsRound
  rw [Int.le_floor]
  linarith

theorem clampByte_of_le (z : ℤ) (h0 : 0 ≤ z) (h255 : z ≤ 255) :
    clampByte z = z.toNat := by
  unfold clampByte
  omega

/-- The padded buffer agrees with the source on the centre. -/
theorem padStage3_center (img : PixelBuffer) (p y x c : ℕ)
    (hx : x < img.width) (hy : y < img.height) :
    padStage3 img p (y + p) (x + p) c = img.data.getD ((y * img.width + x) * 4 + c) 0 := by
  unfold padStage3 padStage2 padStage1
  rw [if_neg (by omega), if_neg (by omega), if_neg (by omega), if_neg (by omega),
    if_pos (by omega), Nat.add_sub_cancel, Nat.add_sub_cancel]

/-! ## C3: createLookupTable on two points with equal inputs -/

set_option maxRecDepth 8000 in
/-- C3 counterexample: `createLookupTable({128,50},{128,200})` does not map
index 0 to the constant `round((50+200)/2) = 125`; index 0 falls into the
left-plateau branch and maps to 50. -/
theorem createLookupTable_equal_inputs_not_constant :
    ¬ ((createLookupTable ⟨128, 50⟩ ⟨128, 200⟩).getD 0 0 = 125) := by
  decide

set_option maxRecDepth 8000 in
/-- C3 amended: with both inputs equal to 128 the table is the two
plateaus — `p1.output = 50` for indices `≤ 128` and `p2.output = 200`
for indices `> 128`; the rounded-average branch for the strict middle is
unreachable because no index lies strictly between two equal inputs. -/
theorem createLookupTable_equal_inputs_plateaus :
    createLookupTable ⟨128, 50⟩ ⟨128, 200⟩
      = (List.range 256).map (fun i => if i ≤ 128 then 50 else 200) := by
  decide

/-! ## C2: parseGB7File on a truncated stream -/

/-- C2: the 12-byte stream with a valid signature, `width = height = 1`
and no payload byte is strictly shorter than `12 + width*height`, yet
`parseGB7File` succeeds, fabricating a full pixel buffer (gray 0, opaque)
from the out-of-bounds read instead of failing with a truncation error. -/
theorem parseGB7File_truncated_still_parses :
    ([0x47, 0x42, 0x37, 0x1d, 1, 0, 0, 1, 0, 1, 0, 0] : List ℕ).length < 12 + 1 * 1 ∧
      parseGB7File [0x47, 0x42, 0x37, 0x1d, 1, 0, 0, 1, 0, 1, 0, 0]
        = .ok ⟨1, false, 1, 1, [0, 0, 0, 255]⟩ :=
  ⟨by norm_num, by rfl⟩

/-! ## C9: encodeGB7 precondition errors -/

/-- C9: `encodeGB7` fails exactly when a dimension is zero, a dimension
exceeds 65535, or the pixel data length differs from `width*height*4`;
otherwise it always succeeds. -/
theorem encodeGB7_error_iff (b : PixelBuffer) :
    (∃ e, encodeGB7 b = .error e) ↔
      (b.width = 0 ∨ b.height = 0 ∨ 65535 < b.width ∨ 65535 < b.height ∨
        b.data.length ≠ b.width * b.height * 4) := by
  simp only [encodeGB7]
  split_ifs with h1 h2 h3
  · simp only [Except.error.injEq, exists_eq']
    tauto
  · simp only [Except.error.injEq, exists_eq']
    tauto
  · simp only [Except.error.injEq, exists_eq']
    tauto
  · constructor
    · rintro ⟨e, he⟩
      exact absurd he (by simp)
    · intro hc
      tauto

/-! ## C5: applyKernelFilter kernel-shape precondition -/

/-- C5 counterexample: the ragged matrix `[[0,0,0],[0,1],[0,0,0]]` has a
row whose length is not 3, yet `applyKernelFilter` accepts it (the check
inspects only the row count and the first row), so the claimed
precondition failure does not happen. -/
theorem applyKernelFilter_ragged_accepted :
    (applyKernelFilter ⟨1, 1, [1, 2, 3, 4]⟩
        ⟨[[0, 0, 0], [0, 1], [0, 0, 0]], some 1, some 0⟩).isOk = true := by
  rfl

/-- C5 amended: `applyKernelFilter` fails with its precondition error
exactly when the row count is not 3 or the first row's length is not 3;
rows past the first are never inspected, so ragged matrices with a
3-entry first row are accepted. -/
theorem applyKernelFilter_error_iff (img : PixelBuffer) (k : Kernel) :
    (∃ e, applyKernelFilter img k = .error e) ↔
      (k.matrix.length ≠ 3 ∨ (k.matrix.getD 0 []).length ≠ 3) := by
  unfold applyKernelFilter
  split_ifs with h
  · simp only [Except.error.injEq, exists_eq']
    tauto
  · constructor
    · rintro ⟨e, he⟩
      exact absurd he (by simp)
    · intro hc
      tauto

/-! ## C6: blendColors alpha formula -/

/-- C6: for byte-valued alphas and opacity in `[0,1]`, the alpha of
`blendColors` is `round(max(baseAlpha, overlayAlpha*opacity))` (the
clamp to `[0,255]` is the identity on that value) — the legacy formula,
independent of the blend mode. -/
theorem blendColors_alpha (base overlay : RGBA) (mode : BlendMode) (opacity : ℚ)
    (_h0 : 0 ≤ opacity) (h1 : opacity ≤ 1)
    (hb : base.a ≤ 255) (ho : overlay.a ≤ 255) :
    (blendColors base overlay mode opacity).a
      = (jsRound (max (base.a : ℚ) ((overlay.a : ℚ) * opacity))).toNat := by
  show clampByte (jsRound (max (base.a : ℚ) ((overlay.a : ℚ) * opacity))) = _
  have hbq : (base.a : ℚ) ≤ 255 := by exact_mod_cast hb
  have hoq : (overlay.a : ℚ) ≤ 255 := by exact_mod_cast ho
  have hub : max (base.a : ℚ) ((overlay.a : ℚ) * opacity) ≤ 255 := by
    apply max_le hbq
    nlinarith [Nat.cast_nonneg (α := ℚ) overlay.a]
  have hlb : (0 : ℚ) ≤ max (base.a : ℚ) ((overlay.a : ℚ) * opacity) :=
    le_trans (by positivity) (le_max_left _ _)
  have hr1 : jsRound (max (base.a : ℚ) ((overlay.a : ℚ) * opacity)) ≤ 255 :=
    jsRound_le_of_le _ _ (by exact_mod_cast hub)
  have hr0 : 0 ≤ jsRound (max (base.a : ℚ) ((overlay.a : ℚ) * opacity)) :=
    le_jsRound_of_le _ _ (by exact_mod_cast hlb)
  exact clampByte_of_le _ hr0 hr1

/-- C6 witness: concrete instantiation at opacity `1/2`. -/
theorem blendColors_alpha_witness :
    ((0 : ℚ) ≤ 1/2 ∧ (1 : ℚ)/2 ≤ 1) ∧
      (blendColors ⟨0, 0, 0, 100⟩ ⟨0, 0, 0, 200⟩ .normal (1/2)).a
        = (jsRound (max ((100 : ℕ) : ℚ) (((200 : ℕ) : ℚ) * (1/2)))).toNat :=
  ⟨by norm_num,
    blendColors_alpha ⟨0, 0, 0, 100⟩ ⟨0, 0, 0, 200⟩ .normal (1/2)
      (by norm_num) (by norm_num) (by norm_num) (by norm_num)⟩

/-! ## C10 and C4: identity-size resampling -/

theorem listOfFn_getElem (n : ℕ) (f : ℕ → ℕ) (i : ℕ) (h : i < (listOfFn n f).length) :
    (listOfFn n f)[i] = f i := by
  simp [listOfFn]

theorem getD_eq_getElem (l : List ℕ) (i : ℕ) (h : i < l.length) :
    l.getD i 0 = l[i] := by
  rw [List.getD_eq_getElem?_getD, List.getElem?_eq_getElem h]
  rfl

/-- A pixel byte index is inside a `width*height*4` buffer. -/
theorem pix_lt (w h x y c : ℕ) (hx : x < w) (hy : y < h) (hc : c < 4) :
    (y * w + x) * 4 + c < w * h * 4 := by
  have h1 : y * w + x < h * w := by
    calc y * w + x < y * w + w := by omega
    _ = (y + 1) * w := by ring
    _ ≤ h * w := Nat.mul_le_mul_right w hy
  calc (y * w + x) * 4 + c < (y * w + x + 1) * 4 := by omega
  _ ≤ (h * w) * 4 := Nat.mul_le_mul_right 4 (by omega)
  _ = w * h * 4 := by ring

/-- `min(floor(y * (n/n)), n-1) = y` for `y < n`: the nearest-neighbour
source coordinate at equal dimensions. -/
theorem floor_self_ratio (y n : ℕ) (hn : 0 < n) (hy : y < n) :
    min (⌊(y : ℚ) * ((n : ℚ) / (n : ℚ))⌋).toNat (n - 1) = y := by
  rw [div_self (by exact_mod_cast hn.ne' : (n : ℚ) ≠ 0), mul_one, Int.floor_natCast]
  simp only [Int.toNat_natCast]
  omega

/-- C10: `nearestNeighbor` with destination dimensions equal to the source
dimensions returns the buffer byte-identically, and so does `resizeImage`
with the nearest method. -/
theorem nearestNeighbor_identity (w h : ℕ) (data : List ℕ)
    (hlen : data.length = w * h * 4) :
    nearestNeighbor data w h w h = data ∧ resizeImage data w h w h .nearest = data := by
  have main : nearestNeighbor data w h w h = data := by
    apply List.ext_getElem
    · simp [nearestNeighbor, listOfFn, hlen]
    · intro i h1 h2
      have hi : i < w * h * 4 := by simpa [nearestNeighbor, listOfFn] using h1
      obtain ⟨hy, hx, hc, hrec⟩ := flatIdx_split w h i hi
      have hw : 0 < w := by
        rcases Nat.eq_zero_or_pos w with h0 | h0
        · subst h0; simp at hi
        · exact h0
      have hh : 0 < h := by
        rcases Nat.eq_zero_or_pos h with h0 | h0
        · subst h0; simp at hi
        · exact h0
      simp only [nearestNeighbor, listOfFn, List.getElem_map, List.getElem_range]
      rw [floor_self_ratio _ _ hh hy, floor_self_ratio _ _ hw hx, hrec]
      exact getD_eq_getElem _ _ (by omega)
  refine ⟨main, ?_⟩
  rw [show resizeImage data w h w h .nearest = nearestNeighbor data w h w h from rfl, main]

/-- C10 witness: a concrete 1×1 buffer. -/
theorem nearestNeighbor_identity_witness :
    ([1, 2, 3, 4] : List ℕ).length = 1 * 1 * 4 ∧
      (nearestNeighbor [1, 2, 3, 4] 1 1 1 1 = [1, 2, 3, 4] ∧
        resizeImage [1, 2, 3, 4] 1 1 1 1 .nearest = [1, 2, 3, 4]) :=
  ⟨by norm_num, nearestNeighbor_identity 1 1 [1, 2, 3, 4] (by norm_num)⟩

/-- C4 counterexample: bilinear resampling at identical dimensions is not
the identity.  On the 2×1 buffer with pixels `(0,0,0,255)` and
`(255,255,255,255)` the second output pixel is the half-way sample
`(128,128,128,255)`, because the sampling ratio is `(srcW-1)/dstW`. -/
theorem bilinear_identity_size_not_identity :
    resizeImage [0, 0, 0, 255, 255, 255, 255, 255] 2 1 2 1 .bilinear
        = [0, 0, 0, 255, 128, 128, 128, 255] ∧
      resizeImage [0, 0, 0, 255, 255, 255, 255, 255] 2 1 2 1 .bilinear
        ≠ [0, 0, 0, 255, 255, 255, 255, 255] := by
  have heval : resizeImage [0, 0, 0, 255, 255, 255, 255, 255] 2 1 2 1 .bilinear
      = [0, 0, 0, 255, 128, 128, 128, 255] := by
    show bilinearInterpolation [0, 0, 0, 255, 255, 255, 255, 255] 2 1 2 1 = _
    simp only [bilinearInterpolation, listOfFn, jsRound, clampByte]
    norm_num [List.range_succ, List.getD]
    decide
  exact ⟨heval, by rw [heval]; decide⟩

/-- The bilinear source coordinate at equal dimensions stays inside the
source: `floor(y * (n-1)/n) ≤ n-1` for `y < n`. -/
theorem floor_shrink_ratio (y n : ℕ) (hn : 0 < n) (hy : y < n) :
    (⌊(y : ℚ) * (((n : ℚ) - 1) / (n : ℚ))⌋).toNat ≤ n - 1 := by
  have hn1 : (1 : ℚ) ≤ (n : ℚ) := by exact_mod_cast hn
  have hr0 : (0 : ℚ) ≤ ((n : ℚ) - 1) / (n : ℚ) := by
    apply div_nonneg (by linarith) (by positivity)
  have hr1 : ((n : ℚ) - 1) / (n : ℚ) ≤ 1 := by
    rw [div_le_one (by linarith)]
    linarith
  have hle : (y : ℚ) * (((n : ℚ) - 1) / (n : ℚ)) ≤ (y : ℚ) := by
    nlinarith [Nat.cast_nonneg (α := ℚ) y]
  have hfl : ⌊(y : ℚ) * (((n : ℚ) - 1) / (n : ℚ))⌋ ≤ (y : ℤ) := by
    calc ⌊(y : ℚ) * (((n : ℚ) - 1) / (n : ℚ))⌋ ≤ ⌊(y : ℚ)⌋ := Int.floor_le_floor hle
    _ = (y : ℤ) := Int.floor_natCast y
  have h2 := Int.toNat_le_toNat hfl
  simp only [Int.toNat_natCast] at h2
  omega

/-- C4 amended: at identical source and destination dimensions, bilinear
resampling reproduces the buffer byte-identically whenever the buffer is a
constant colour (every pixel carries the same four channel bytes `col 0`,
`col 1`, `col 2`, `col 3`); for general buffers the identity fails. -/
theorem bilinear_identity_on_constant (w h : ℕ) (data : List ℕ) (col : ℕ → ℕ)
    (hlen : data.length = w * h * 4)
    (hconst : ∀ i, i < data.length → data.getD i 0 = col (i % 4))
    (hbyte : ∀ c, c < 4 → col c ≤ 255) :
    resizeImage data w h w h .bilinear = data := by
  rw [show resizeImage data w h w h .bilinear = bilinearInterpolation data w h w h from rfl]
  apply List.ext_getElem
  · simp [bilinearInterpolation, listOfFn, hlen]
  · intro i h1 h2
    have hi : i < w * h * 4 := by simpa [bilinearInterpolation, listOfFn] using h1
    obtain ⟨hy, hx, hc, hrec⟩ := flatIdx_split w h i hi
    have hw : 0 < w := by
      rcases Nat.eq_zero_or_pos w with h0 | h0
      · subst h0; simp at hi
      · exact h0
    have hh : 0 < h := by
      rcases Nat.eq_zero_or_pos h with h0 | h0
      · subst h0; simp at hi
      · exact h0
    have hy1 : (⌊((i / (4 * w) : ℕ) : ℚ) * (((h : ℚ) - 1) / (h : ℚ))⌋).toNat < h := by
      have := floor_shrink_ratio (i / (4 * w)) h hh hy
      omega
    have hx1 : (⌊((i % (4 * w) / 4 : ℕ) : ℚ) * (((w : ℚ) - 1) / (w : ℚ))⌋).toNat < w := by
      have := floor_shrink_ratio (i % (4 * w) / 4) w hw hx
      omega
    have hy2 : min ((⌊((i / (4 * w) : ℕ) : ℚ) * (((h : ℚ) - 1) / (h : ℚ))⌋).toNat + 1)
        (h - 1) < h := by omega
    have hx2 : min ((⌊((i % (4 * w) / 4 : ℕ) : ℚ) * (((w : ℚ) - 1) / (w : ℚ))⌋).toNat + 1)
        (w - 1) < w := by omega
    have hread : ∀ a b : ℕ, a < w → b < h →
        data.getD ((b * w + a) * 4 + i % 4) 0 = col (i % 4) := by
      intro a b ha hb
      rw [hconst _ (by rw [hlen]; exact pix_lt w h a b (i % 4) ha hb (by omega)),
        flatIdx_chan w b a (i % 4) (by omega)]
    simp only [bilinearInterpolation, listOfFn, List.getElem_map, List.getElem_range]
    rw [hread _ _ hx1 hy1, hread _ _ hx2 hy1, hread _ _ hx1 hy2, hread _ _ hx2 hy2]
    have hvE : ∀ xd yd : ℚ,
        (1 - yd) * ((1 - xd) * ((col (i % 4) : ℕ) : ℚ) + xd * ((col (i % 4) : ℕ) : ℚ))
          + yd * ((1 - xd) * ((col (i % 4) : ℕ) : ℚ) + xd * ((col (i % 4) : ℕ) : ℚ))
          = ((col (i % 4) : ℕ) : ℚ) := by
      intro xd yd
      ring
    rw [hvE, jsRound_natCast]
    have hcb : clampByte ((col (i % 4) : ℕ) : ℤ) = col (i % 4) := by
      unfold clampByte
      have := hbyte (i % 4) (by omega)
      omega
    rw [hcb, ← getD_eq_getElem data i (by omega), hconst i (by omega)]

/-- C4 amended witness: a concrete constant 1×1 buffer. -/
theorem bilinear_identity_on_constant_witness :
    resizeImage [5, 6, 7, 8] 1 1 1 1 .bilinear = [5, 6, 7, 8] :=
  bilinear_identity_on_constant 1 1 [5, 6, 7, 8] (fun c => [5, 6, 7, 8].getD c 0)
    (by decide) (by decide) (by decide)

/-! ## C8: identity-kernel convolution is the identity -/

theorem clamp_round_natCast (n : ℕ) (hn : n ≤ 255) :
    toUint8Clamped (jsMax (.num 0) (jsMin (.num 255) (jsRoundN (.num ((n : ℕ) : ℚ))))) = n := by
  have h1 : jsRoundN (.num ((n : ℕ) : ℚ)) = .num (((n : ℕ) : ℤ) : ℚ) := by
    simp [jsRoundN, jsRound_natCast]
  rw [h1]
  have hq : (((n : ℕ) : ℤ) : ℚ) = ((n : ℕ) : ℚ) := by push_cast; ring
  have h2 : jsMin (.num 255) (.num (((n : ℕ) : ℤ) : ℚ)) = .num (((n : ℕ) : ℤ) : ℚ) := by
    simp only [jsMin]
    congr 1
    rw [min_eq_right]
    rw [hq]
    exact_mod_cast hn
  rw [h2]
  have h3 : jsMax (.num 0) (.num (((n : ℕ) : ℤ) : ℚ)) = .num (((n : ℕ) : ℤ) : ℚ) := by
    simp only [jsMax]
    congr 1
    rw [max_eq_right]
    rw [hq]
    positivity
  rw [h3]
  simp only [toUint8Clamped]
  rw [hq, Int.floor_natCast]
  omega

theorem convolvePixel_identity (padded : ℕ → ℕ → ℕ → ℕ) (x y c : ℕ)
    (hb : padded (y + 1) (x + 1) c ≤ 255) :
    convolvePixel padded identityKernel x y c = padded (y + 1) (x + 1) c := by
  unfold convolvePixel
  simp only [show List.range 3 = [0, 1, 2] from rfl, List.foldl_cons, List.foldl_nil]
  simp only [show kernelAt identityKernel.matrix 0 0 = JSNum.num 0 from rfl,
    show kernelAt identityKernel.matrix 0 1 = JSNum.num 0 from rfl,
    show kernelAt identityKernel.matrix 0 2 = JSNum.num 0 from rfl,
    show kernelAt identityKernel.matrix 1 0 = JSNum.num 0 from rfl,
    show kernelAt identityKernel.matrix 1 1 = JSNum.num 1 from rfl,
    show kernelAt identityKernel.matrix 1 2 = JSNum.num 0 from rfl,
    show kernelAt identityKernel.matrix 2 0 = JSNum.num 0 from rfl,
    show kernelAt identityKernel.matrix 2 1 = JSNum.num 0 from rfl,
    show kernelAt identityKernel.matrix 2 2 = JSNum.num 0 from rfl,
    show identityKernel.divisor = some 1 from rfl,
    show identityKernel.offset = some 0 from rfl]
  simp only [jsMul, jsAdd, jsDiv, Option.getD_some, mul_zero, mul_one, add_zero, zero_add,
    one_ne_zero, if_false, div_one]
  exact clamp_round_natCast _ hb

theorem padImageData_getD (img : PixelBuffer) (p py px c : ℕ)
    (hpy : py < img.height + 2 * p) (hpx : px < img.width + 2 * p) (hc : c < 4) :
    (padImageData img p).data.getD ((py * (img.width + 2 * p) + px) * 4 + c) 0
      = padStage3 img p py px c := by
  unfold padImageData
  rw [listOfFn_getD _ _ _ (pix_lt (img.width + 2 * p) (img.height + 2 * p) px py c hpx hpy hc),
    flatIdx_row (img.width + 2 * p) py px c hpx hc,
    flatIdx_col (img.width + 2 * p) py px c hpx hc,
    flatIdx_chan (img.width + 2 * p) py px c hc]

/-- C8: `applyKernelFilter` with the identity kernel
`[[0,0,0],[0,1,0],[0,0,0]]` (divisor 1, offset 0) returns a buffer
bit-identical to the input — every R, G, B byte is reproduced exactly and
alpha is copied through — for every well-formed buffer of bytes. -/
theorem applyKernelFilter_identity (img : PixelBuffer)
    (hlen : img.data.length = img.width * img.height * 4)
    (hbyte : ∀ b ∈ img.data, b ≤ 255) :
    applyKernelFilter img identityKernel = .ok img := by
  obtain ⟨w, hgt, data⟩ := img
  dsimp only at hlen hbyte ⊢
  unfold applyKernelFilter
  rw [if_neg (by decide)]
  dsimp only
  simp only [Except.ok.injEq, PixelBuffer.mk.injEq, true_and]
  apply List.ext_getElem
  · rw [listOfFn_length, hlen]
  · intro i h1 h2
    have hi : i < w * hgt * 4 := by rwa [listOfFn_length] at h1
    obtain ⟨hy, hx, hc, hrec⟩ := flatIdx_split w hgt i hi
    have hw : 0 < w := by
      rcases Nat.eq_zero_or_pos w with h0 | h0
      · subst h0; simp at hi
      · exact h0
    have hh : 0 < hgt := by
      rcases Nat.eq_zero_or_pos hgt with h0 | h0
      · subst h0; simp at hi
      · exact h0
    rw [listOfFn_getElem _ _ _ h1]
    by_cases hch : i % 4 < 3
    · rw [if_pos hch]
      have hbnd : data.getD ((i / (4 * w) * w + i % (4 * w) / 4) * 4 + i % 4) 0 ≤ 255 := by
        have hlt : (i / (4 * w) * w + i % (4 * w) / 4) * 4 + i % 4 < data.length := by
          rw [hlen]
          exact pix_lt w hgt (i % (4 * w) / 4) (i / (4 * w)) (i % 4) hx hy (by omega)
        rw [getD_eq_getElem _ _ hlt]
        exact hbyte _ (List.getElem_mem hlt)
      have hpad : (padImageData ⟨w, hgt, data⟩ 1).data.getD
          (((i / (4 * w) + 1) * (padImageData ⟨w, hgt, data⟩ 1).width + (i % (4 * w) / 4 + 1))
            * 4 + i % 4) 0
            = data.getD ((i / (4 * w) * w + i % (4 * w) / 4) * 4 + i % 4) 0 := by
        rw [show (padImageData ⟨w, hgt, data⟩ 1).width = w + 2 * 1 from rfl]
        rw [padImageData_getD ⟨w, hgt, data⟩ 1 (i / (4 * w) + 1) (i % (4 * w) / 4 + 1) (i % 4)
            (by dsimp only; omega) (by dsimp only; omega) (by omega)]
        exact padStage3_center ⟨w, hgt, data⟩ 1 (i / (4 * w)) (i % (4 * w) / 4) (i % 4) hx hy
      rw [convolvePixel_identity _ _ _ _ (by rw [hpad]; exact hbnd), hpad, hrec,
        getD_eq_getElem _ _ (by omega)]
    · rw [if_neg hch]
      have hc3 : i % 4 = 3 := by omega
      rw [show (3 : ℕ) = i % 4 from hc3.symm, hrec]
      exact getD_eq_getElem _ _ (by omega)

/-- C8 witness: a concrete 1×1 buffer through the identity kernel. -/
theorem applyKernelFilter_identity_witness :
    ([1, 2, 3, 4] : List ℕ).length = 1 * 1 * 4 ∧
      applyKernelFilter ⟨1, 1, [1, 2, 3, 4]⟩ identityKernel = .ok ⟨1, 1, [1, 2, 3, 4]⟩ :=
  ⟨by decide, applyKernelFilter_identity ⟨1, 1, [1, 2, 3, 4]⟩ (by decide) (by decide)⟩

/-! ## C7: filters pass alpha through unmodified -/

theorem listOfFn_filter_alpha (w hgt x y : ℕ) (g : ℕ → ℕ) (data : List ℕ)
    (hx : x < w) (hy : y < hgt) :
    (listOfFn (w * hgt * 4) fun idx =>
        if idx % 4 < 3 then g idx
        else data.getD ((idx / (4 * w) * w + idx % (4 * w) / 4) * 4 + 3) 0).getD
      ((y * w + x) * 4 + 3) 0 = data.getD ((y * w + x) * 4 + 3) 0 := by
  rw [listOfFn_getD _ _ _ (pix_lt w hgt x y 3 hx hy (by omega)),
    flatIdx_chan w y x 3 (by omega), if_neg (by omega),
    flatIdx_row w y x 3 hx (by omega), flatIdx_col w y x 3 hx (by omega)]

theorem applyKernelFilter_alpha (img : PixelBuffer) (k : Kernel) (out : PixelBuffer)
    (h : applyKernelFilter img k = .ok out) (x y : ℕ)
    (hx : x < img.width) (hy : y < img.height) :
    out.data.getD ((y * img.width + x) * 4 + 3) 0
      = img.data.getD ((y * img.width + x) * 4 + 3) 0 := by
  unfold applyKernelFilter at h
  by_cases hk : k.matrix.length ≠ 3 ∨ (k.matrix.getD 0 []).length ≠ 3
  · rw [if_pos hk] at h
    exact absurd h (by simp)
  · rw [if_neg hk] at h
    injection h with h2
    subst h2
    dsimp only
    exact listOfFn_filter_alpha img.width img.height x y _ img.data hx hy

theorem gaussianPass_alpha (img : PixelBuffer) (x y : ℕ)
    (hx : x < img.width) (hy : y < img.height) :
    (gaussianPass img).data.getD ((y * img.width + x) * 4 + 3) 0
      = img.data.getD ((y * img.width + x) * 4 + 3) 0 :=
  applyKernelFilter_alpha img gaussianKernel (gaussianPass img) rfl x y hx hy

theorem gaussianIter_dims_alpha (n : ℕ) (img : PixelBuffer) :
    (gaussianIter n img).width = img.width ∧ (gaussianIter n img).height = img.height ∧
      ∀ x y, x < img.width → y < img.height →
        (gaussianIter n img).data.getD ((y * img.width + x) * 4 + 3) 0
          = img.data.getD ((y * img.width + x) * 4 + 3) 0 := by
  induction n generalizing img with
  | zero => exact ⟨rfl, rfl, fun x y _ _ => rfl⟩
  | succ n ih =>
    obtain ⟨hw, hh, ha⟩ := ih (gaussianPass img)
    have hpw : (gaussianPass img).width = img.width := rfl
    have hph : (gaussianPass img).height = img.height := rfl
    refine ⟨?_, ?_, ?_⟩
    · rw [show gaussianIter (n + 1) img = gaussianIter n (gaussianPass img) from rfl, hw, hpw]
    · rw [show gaussianIter (n + 1) img = gaussianIter n (gaussianPass img) from rfl, hh, hph]
    · intro x y hx hy
      rw [show gaussianIter (n + 1) img = gaussianIter n (gaussianPass img) from rfl]
      have hx2 : x < (gaussianPass img).width := by rw [hpw]; exact hx
      have hy2 : y < (gaussianPass img).height := by rw [hph]; exact hy
      have hstep := ha x y hx2 hy2
      rw [hpw] at hstep
      rw [hstep]
      exact gaussianPass_alpha img x y hx hy

/-- C7: all three filters pass the alpha channel through unmodified at
every pixel — kernel convolution (for every accepted kernel), the median
filter (for every odd kernel size) and the Gaussian approximation (for
every sigma). -/
theorem filters_preserve_alpha :
    (∀ (img : PixelBuffer) (k : Kernel) (out : PixelBuffer),
        applyKernelFilter img k = .ok out →
        ∀ x y, x < img.width → y < img.height →
          out.data.getD ((y * img.width + x) * 4 + 3) 0
            = img.data.getD ((y * img.width + x) * 4 + 3) 0) ∧
      (∀ (img : PixelBuffer) (kernelSize : ℕ), Odd kernelSize →
        ∀ x y, x < img.width → y < img.height →
          (applyMedianFilter img kernelSize).data.getD ((y * img.width + x) * 4 + 3) 0
            = img.data.getD ((y * img.width + x) * 4 + 3) 0) ∧
      (∀ (img : PixelBuffer) (sigma : ℚ) (x y : ℕ), x < img.width → y < img.height →
          (applyGaussianBlur img sigma).data.getD ((y * img.width + x) * 4 + 3) 0
            = img.data.getD ((y * img.width + x) * 4 + 3) 0) := by
  refine ⟨fun img k out h x y hx hy => applyKernelFilter_alpha img k out h x y hx hy,
    fun img ks _ x y hx hy => ?_, fun img sigma x y hx hy => ?_⟩
  · unfold applyMedianFilter
    dsimp only
    exact listOfFn_filter_alpha img.width img.height x y _ img.data hx hy
  · unfold applyGaussianBlur
    exact (gaussianIter_dims_alpha _ img).2.2 x y hx hy

/-- C7 witness: concrete instantiation of all three conjuncts on a 1×1
buffer with alpha byte 4. -/
theorem filters_preserve_alpha_witness :
    Odd 3 ∧
      ((⟨1, 1, [1, 2, 3, 4]⟩ : PixelBuffer).data.getD ((0 * 1 + 0) * 4 + 3) 0
          = (⟨1, 1, [1, 2, 3, 4]⟩ : PixelBuffer).data.getD ((0 * 1 + 0) * 4 + 3) 0 ∧
        (applyMedianFilter ⟨1, 1, [1, 2, 3, 4]⟩ 3).data.getD ((0 * 1 + 0) * 4 + 3) 0
          = (⟨1, 1, [1, 2, 3, 4]⟩ : PixelBuffer).data.getD ((0 * 1 + 0) * 4 + 3) 0 ∧
        (applyGaussianBlur ⟨1, 1, [1, 2, 3, 4]⟩ 1).data.getD ((0 * 1 + 0) * 4 + 3) 0
          = (⟨1, 1, [1, 2, 3, 4]⟩ : PixelBuffer).data.getD ((0 * 1 + 0) * 4 + 3) 0) := by
  have hk : applyKernelFilter ⟨1, 1, [1, 2, 3, 4]⟩ identityKernel
      = .ok ⟨1, 1, [1, 2, 3, 4]⟩ := by
    unfold applyKernelFilter
    rw [if_neg (by decide)]
    dsimp only
    simp only [Except.ok.injEq, PixelBuffer.mk.injEq, true_and]
    simp only [listOfFn, show List.range (1 * 1 * 4) = [0, 1, 2, 3] from rfl,
      List.map_cons, List.map_nil]
    norm_num
    rw [convolvePixel_identity _ 0 0 0 (by decide), convolvePixel_identity _ 0 0 1 (by decide),
      convolvePixel_identity _ 0 0 2 (by decide)]
    decide
  refine ⟨by decide,
    filters_preserve_alpha.1 ⟨1, 1, [1, 2, 3, 4]⟩ identityKernel ⟨1, 1, [1, 2, 3, 4]⟩ hk
      0 0 (by decide) (by decide),
    filters_preserve_alpha.2.1 ⟨1, 1, [1, 2, 3, 4]⟩ 3 (by decide) 0 0 (by decide) (by decide),
    filters_preserve_alpha.2.2 ⟨1, 1, [1, 2, 3, 4]⟩ 1 0 0 (by decide) (by decide)⟩

/-! ## C1: encodeGB7 byte layout -/

theorem map_range_getD (n : ℕ) (f : ℕ → ℕ) (i : ℕ) (h : i < n) :
    ((List.range n).map f).getD i 0 = f i :=
  listOfFn_getD n f i h

theorem grayscale7Bit_lt (r g b : ℕ) : grayscale7Bit r g b < 128 := by
  have h1 : ∀ z : ℤ, (max 0 (min 127 z)).toNat < 128 := fun z => by omega
  exact h1 _

theorem anyMask_iff (pc : ℕ) (data : List ℕ) :
    ((((List.range pc).map fun i => alphaBit (data.getD (i * 4 + 3) 0)).any
        fun bit => bit = 0) = true)
      ↔ ∃ i, i < pc ∧ data.getD (i * 4 + 3) 0 < 128 := by
  simp only [List.any_eq_true, List.mem_map, List.mem_range, alphaBit,
    decide_eq_true_eq]
  constructor
  · rintro ⟨a, ⟨i, hi, rfl⟩, ha⟩
    refine ⟨i, hi, ?_⟩
    by_cases hle : 128 ≤ data.getD (i * 4 + 3) 0
    · rw [if_pos hle] at ha
      exact absurd ha (by norm_num)
    · omega
  · rintro ⟨i, hi, hlt⟩
    exact ⟨0, ⟨i, hi, by rw [if_neg (by omega)]⟩, rfl⟩

theorem getD_at5 (a0 a1 a2 a3 a4 a5 a6 a7 a8 a9 a10 a11 : ℕ) (l : List ℕ) :
    (a0 :: a1 :: a2 :: a3 :: a4 :: a5 :: a6 :: a7 :: a8 :: a9 :: a10 :: a11 :: l).getD 5 0
      = a5 := rfl

theorem getD_at6 (a0 a1 a2 a3 a4 a5 a6 a7 a8 a9 a10 a11 : ℕ) (l : List ℕ) :
    (a0 :: a1 :: a2 :: a3 :: a4 :: a5 :: a6 :: a7 :: a8 :: a9 :: a10 :: a11 :: l).getD 6 0
      = a6 := rfl

theorem getD_at7 (a0 a1 a2 a3 a4 a5 a6 a7 a8 a9 a10 a11 : ℕ) (l : List ℕ) :
    (a0 :: a1 :: a2 :: a3 :: a4 :: a5 :: a6 :: a7 :: a8 :: a9 :: a10 :: a11 :: l).getD 7 0
      = a7 := rfl

theorem getD_at8 (a0 a1 a2 a3 a4 a5 a6 a7 a8 a9 a10 a11 : ℕ) (l : List ℕ) :
    (a0 :: a1 :: a2 :: a3 :: a4 :: a5 :: a6 :: a7 :: a8 :: a9 :: a10 :: a11 :: l).getD 8 0
      = a8 := rfl

theorem getD_at9 (a0 a1 a2 a3 a4 a5 a6 a7 a8 a9 a10 a11 : ℕ) (l : List ℕ) :
    (a0 :: a1 :: a2 :: a3 :: a4 :: a5 :: a6 :: a7 :: a8 :: a9 :: a10 :: a11 :: l).getD 9 0
      = a9 := rfl

theorem getD_at12 (a0 a1 a2 a3 a4 a5 a6 a7 a8 a9 a10 a11 : ℕ) (l : List ℕ) (i : ℕ) :
    (a0 :: a1 :: a2 :: a3 :: a4 :: a5 :: a6 :: a7 :: a8 :: a9 :: a10 :: a11 :: l).getD
      (12 + i) 0 = l.getD i 0 := by
  rw [Nat.add_comm]
  rfl

/-- C1: for every valid buffer, `encodeGB7` produces the exact GB7 byte
layout: length `12 + w*h`, magic `47 42 37 1D`, version 1, flag bit0 set
exactly when some pixel has alpha below 128, big-endian dimensions, two
reserved zero bytes, and per-pixel payload `(maskBit<<7)|gray7` when the
mask flag is set and plain `gray7` (top bit 0) otherwise. -/
theorem encodeGB7_layout (b : PixelBuffer)
    (hw1 : 1 ≤ b.width) (hw2 : b.width ≤ 65535)
    (hh1 : 1 ≤ b.height) (hh2 : b.height ≤ 65535)
    (hlen : b.data.length = b.width * b.height * 4) :
    ∃ out, encodeGB7 b = .ok out ∧
      out.length = 12 + b.width * b.height ∧
      out.getD 0 0 = 0x47 ∧ out.getD 1 0 = 0x42 ∧
      out.getD 2 0 = 0x37 ∧ out.getD 3 0 = 0x1d ∧
      out.getD 4 0 = 1 ∧
      (out.getD 5 0 % 2 = 1 ↔ ∃ i, i < b.width * b.height ∧ b.data.getD (i * 4 + 3) 0 < 128) ∧
      out.getD 6 0 = b.width / 256 ∧ out.getD 7 0 = b.width % 256 ∧
      out.getD 8 0 = b.height / 256 ∧ out.getD 9 0 = b.height % 256 ∧
      out.getD 10 0 = 0 ∧ out.getD 11 0 = 0 ∧
      ∀ i, i < b.width * b.height →
        grayscale7Bit (b.data.getD (i * 4) 0) (b.data.getD (i * 4 + 1) 0)
          (b.data.getD (i * 4 + 2) 0) < 128 ∧
        ((∃ j, j < b.width * b.height ∧ b.data.getD (j * 4 + 3) 0 < 128) →
          out.getD (12 + i) 0 =
            (alphaBit (b.data.getD (i * 4 + 3) 0)) <<< 7 |||
              grayscale7Bit (b.data.getD (i * 4) 0) (b.data.getD (i * 4 + 1) 0)
                (b.data.getD (i * 4 + 2) 0)) ∧
        (¬ (∃ j, j < b.width * b.height ∧ b.data.getD (j * 4 + 3) 0 < 128) →
          out.getD (12 + i) 0 =
            grayscale7Bit (b.data.getD (i * 4) 0) (b.data.getD (i * 4 + 1) 0)
              (b.data.getD (i * 4 + 2) 0)) := by
  obtain ⟨w, hgt, data⟩ := b
  dsimp only at hw1 hw2 hh1 hh2 hlen ⊢
  simp only [encodeGB7]
  rw [if_neg (by omega), if_neg (by omega), if_neg (by omega)]
  generalize hM : (((List.range (w * hgt)).map fun i =>
      alphaBit (data.getD (i * 4 + 3) 0)).any fun bit => bit = 0) = m
  cases m with
  | false =>
    have hno : ¬ ∃ i, i < w * hgt ∧ data.getD (i * 4 + 3) 0 < 128 := by
      intro hex
      have h2 := (anyMask_iff (w * hgt) data).mpr hex
      rw [hM] at h2
      exact absurd h2 (by simp)
    refine ⟨0x47 :: 0x42 :: 0x37 :: 0x1d :: 1 :: 0 :: (w % 65536 / 256) :: (w % 65536 % 256)
        :: (hgt % 65536 / 256) :: (hgt % 65536 % 256) :: 0 :: 0
        :: ((List.range (w * hgt)).map fun i =>
            grayscale7Bit (data.getD (i * 4) 0) (data.getD (i * 4 + 1) 0)
              (data.getD (i * 4 + 2) 0)),
      rfl, ?_, rfl, rfl, rfl, rfl, rfl, ?_, ?_, ?_, ?_, ?_, rfl, rfl, ?_⟩
    · simp only [List.length_cons, List.length_map, List.length_range]
      omega
    · rw [getD_at5]
      exact ⟨fun h => absurd h (by norm_num), fun h => absurd h hno⟩
    · rw [getD_at6, Nat.mod_eq_of_lt (by omega : w < 65536)]
    · rw [getD_at7, Nat.mod_eq_of_lt (by omega : w < 65536)]
    · rw [getD_at8, Nat.mod_eq_of_lt (by omega : hgt < 65536)]
    · rw [getD_at9, Nat.mod_eq_of_lt (by omega : hgt < 65536)]
    · intro i hi
      refine ⟨grayscale7Bit_lt _ _ _, fun hex => absurd hex hno, fun _ => ?_⟩
      rw [getD_at12]
      exact map_range_getD (w * hgt) _ i hi
  | true =>
    have hyes : ∃ i, i < w * hgt ∧ data.getD (i * 4 + 3) 0 < 128 :=
      (anyMask_iff (w * hgt) data).mp hM
    refine ⟨0x47 :: 0x42 :: 0x37 :: 0x1d :: 1 :: 1 :: (w % 65536 / 256) :: (w % 65536 % 256)
        :: (hgt % 65536 / 256) :: (hgt % 65536 % 256) :: 0 :: 0
        :: ((List.range (w * hgt)).map fun i =>
            (((List.range (w * hgt)).map fun j =>
                alphaBit (data.getD (j * 4 + 3) 0)).getD i 0) <<< 7
              ||| (((List.range (w * hgt)).map fun j =>
                    grayscale7Bit (data.getD (j * 4) 0) (data.getD (j * 4 + 1) 0)
                      (data.getD (j * 4 + 2) 0)).getD i 0)),
      rfl, ?_, rfl, rfl, rfl, rfl, rfl, ?_, ?_, ?_, ?_, ?_, rfl, rfl, ?_⟩
    · simp only [List.length_cons, List.length_map, List.length_range]
      omega
    · rw [getD_at5]
      exact ⟨fun _ => hyes, fun _ => rfl⟩
    · rw [getD_at6, Nat.mod_eq_of_lt (by omega : w < 65536)]
    · rw [getD_at7, Nat.mod_eq_of_lt (by omega : w < 65536)]
    · rw [getD_at8, Nat.mod_eq_of_lt (by omega : hgt < 65536)]
    · rw [getD_at9, Nat.mod_eq_of_lt (by omega : hgt < 65536)]
    · intro i hi
      refine ⟨grayscale7Bit_lt _ _ _, fun _ => ?_, fun hnex => absurd hyes hnex⟩
      rw [getD_at12, map_range_getD (w * hgt) _ i hi,
        map_range_getD (w * hgt) _ i hi, map_range_getD (w * hgt) _ i hi]

/-- C1 witness: concrete instantiation on a 1×1 opaque buffer. -/
theorem encodeGB7_layout_witness :
    ((1 : ℕ) ≤ 1 ∧ (1 : ℕ) ≤ 65535 ∧ ([10, 20, 30, 200] : List ℕ).length = 1 * 1 * 4) ∧
      (encodeGB7 ⟨1, 1, [10, 20, 30, 200]⟩).isOk = true := by
  refine ⟨⟨le_refl 1, by norm_num, by norm_num⟩, ?_⟩
  obtain ⟨out, heq, _⟩ := encodeGB7_layout ⟨1, 1, [10, 20, 30, 200]⟩
    (by decide) (by decide) (by decide) (by decide) (by decide)
  rw [heq]
  rfl
